import Mathlib

/-!
Verification of the calculator engine in `src/App.tsx`.

The component keeps four `useState` fields (`current`, `previous`, `operator`,
`overwrite`) and mutates them through six handlers (`handleDigit`,
`handleDecimal`, `handleOperator`, `handleEqual`, `clearAll`, `handleDelete`).
We embed the state as a record and each handler as a pure transition.

Modelling notes.

* React's `useState` setters do not update the variables captured by the
  running handler: every read inside one handler sees the state as it was when
  the handler started, and when several setters write the same field during one
  handler the last write wins.  The handlers below encode exactly that: the
  writes issued by `resetIfError` (which calls `clearAll`'s four setters) are
  kept for a field unless a later statement of the handler writes that field
  again, and all reads use the pre-handler state.

* JavaScript numbers are IEEE doubles.  The strings the engine feeds to
  `parseFloat` are short decimal numerals, which we model by exact rationals,
  represented as unnormalised fractions `num / den` (`JsNumber`); every use of
  a number below — zero test, sign test, rounding, printing — is independent
  of the representative.  Consequences of the idealisation: parsing is exact
  instead of rounded to the nearest double, no overflow to `Infinity` occurs
  inside arithmetic (an explicit `Infinity` literal is still rejected,
  mirroring the `Number.isFinite` guard), and `toString` of a result is
  positional (JS switches to exponential notation only for magnitudes ≥ 1e21).

* `Number.prototype.toFixed(10)` is modelled on the magnitude by rounding to
  ten fractional digits, ties toward the larger integer, as the ECMAScript
  specification prescribes, and `fixed.toString()` followed by the trailing
  zero trimming gives the same string as printing ten fractional digits and
  then trimming, because after `toFixed(10)` the value has at most ten decimal
  places.
-/

namespace Jsq

/-- The four operator keys `÷ × - +` of the keypad. -/
inductive Operator where
  | div
  | mul
  | sub
  | add
deriving DecidableEq, Repr

/-- An exact rational `num / den`, kept unnormalised (`den` is never `0` on
any value the engine builds).  This stands for a JS number. -/
structure JsNumber where
  num : ℤ
  den : ℕ
deriving DecidableEq, Repr

/-- `a === 0` (true exactly when the fraction's value is zero). -/
def JsNumber.isZero (a : JsNumber) : Bool := a.num = 0

/-- `a < 0`. -/
def JsNumber.isNeg (a : JsNumber) : Bool := a.num < 0

/-- Unary minus. -/
def JsNumber.neg (a : JsNumber) : JsNumber := ⟨-a.num, a.den⟩

/-- Exact `a + b`. -/
def JsNumber.add (a b : JsNumber) : JsNumber :=
  ⟨a.num * b.den + b.num * a.den, a.den * b.den⟩

/-- Exact `a - b`. -/
def JsNumber.sub (a b : JsNumber) : JsNumber :=
  ⟨a.num * b.den - b.num * a.den, a.den * b.den⟩

/-- Exact `a * b`. -/
def JsNumber.mul (a b : JsNumber) : JsNumber :=
  ⟨a.num * b.num, a.den * b.den⟩

/-- Exact `a / b` (the engine only divides after ruling out `b === 0`). -/
def JsNumber.div (a b : JsNumber) : JsNumber :=
  if b.num < 0 then ⟨-(a.num * b.den), a.den * b.num.natAbs⟩
  else ⟨a.num * b.den, a.den * b.num.natAbs⟩

/-- `const operators = { '÷': (a,b) => a/b, '×': (a,b) => a*b, ... }`. -/
def operators : Operator → JsNumber → JsNumber → JsNumber
  | Operator.div => fun a b => a.div b
  | Operator.mul => fun a b => a.mul b
  | Operator.sub => fun a b => a.sub b
  | Operator.add => fun a b => a.add b

/-- `const initialCurrent = '0'`. -/
def initialCurrent : String := "0"

/-- `const MAX_LENGTH = 18`. -/
def MAX_LENGTH : Nat := 18

/-- `value.replace('-', '')` on the character list: JS `String.replace` with a
string pattern removes only the first occurrence. -/
def removeFirst (c : Char) : List Char → List Char
  | [] => []
  | a :: rest => if a = c then rest else a :: removeFirst c rest

/-- `value.replace('-', '')`. -/
def stripFirstMinus (s : String) : String := ⟨removeFirst '-' s.data⟩

/-- The spec's phrase "with any leading minus sign ignored": drop a minus sign
only when it is the first character.  On well-formed numerals (minus only in
front) this agrees with `stripFirstMinus`, which is what the code runs. -/
def dropLeadingMinus (s : String) : String :=
  if s.data.head? = some '-' then ⟨s.data.tail⟩ else s

/-- `sanitizeNumber`: `'Error'` and `''` both render as `initialCurrent`. -/
def sanitizeNumber (value : String) : String :=
  if value = "Error" then initialCurrent
  else if value = "" then initialCurrent
  else value

/-- First regex of `trimTrailingZeros`, `/\.0+$/ → ''`, acting on the reversed
character list: a nonempty run of `'0'` at the end of the string preceded by a
dot is removed together with the dot.  (The regex can only match at the last
dot, since everything after the matched dot must be a zero.) -/
def trimR1 (l : List Char) : List Char :=
  if l.takeWhile (fun c => c == '0') ≠ [] ∧
      (l.dropWhile (fun c => c == '0')).head? = some '.' then
    (l.dropWhile (fun c => c == '0')).tail
  else l

/-- Is the head of the (reversed) list a digit `1`–`9`? -/
def headNonzeroDigit (l : List Char) : Bool :=
  match l.head? with
  | some d => decide ('1' ≤ d ∧ d ≤ '9')
  | none => false

/-- Second regex, `/(\.\d*?[1-9])0+$/ → '$1'`, on the reversed list: a
nonempty trailing run of `'0'` is removed when it is preceded by a digit
`1`–`9` that is separated from a dot only by digits.  (The lazy `\d*?` with the
`$` anchor forces the `[1-9]` to sit immediately before the maximal trailing
zero run, and the backreference keeps everything up to that digit.) -/
def trimR2 (l : List Char) : List Char :=
  if l.takeWhile (fun c => c == '0') ≠ [] ∧
      headNonzeroDigit (l.dropWhile (fun c => c == '0')) = true ∧
      ((l.dropWhile (fun c => c == '0')).tail.dropWhile Char.isDigit).head?
        = some '.' then
    l.dropWhile (fun c => c == '0')
  else l

/-- Third regex, `/\.$/ → ''`, on the reversed list: drop a leading dot. -/
def trimR3 (l : List Char) : List Char :=
  if l.head? = some '.' then l.tail else l

/-- The three end-anchored replacements of `trimTrailingZeros` in source
order, on the reversed character list. -/
def trimCore (l : List Char) : List Char := trimR3 (trimR2 (trimR1 l))

/-- `trimTrailingZeros`: apply the three end-anchored regex replacements in
order, and fall back to `'0'` when the result is empty. -/
def trimTrailingZeros (value : String) : String :=
  if '.' ∉ value.data then value
  else
    let t := trimCore value.data.reverse
    if t = [] then initialCurrent else ⟨t.reverse⟩

/-- Decimal digits of a natural number (fuel-based so the recursion is
structural); `natToString 0 = "0"`. -/
def natToDigitsAux : Nat → Nat → List Char
  | 0, _ => []
  | fuel + 1, n =>
    if n = 0 then []
    else natToDigitsAux fuel (n / 10) ++ [Char.ofNat (48 + n % 10)]

/-- Decimal string of a natural number, as JS prints nonnegative integers. -/
def natToString (n : Nat) : String :=
  if n = 0 then "0" else ⟨natToDigitsAux (n + 1) n⟩

/-- Zero-pad a fractional part to exactly ten digits. -/
def padFrac (n : Nat) : String :=
  let s := natToString n
  ⟨List.replicate (10 - s.length) '0'⟩ ++ s

/-- `toFixed(10)` applied to the magnitude `|value|`: the integer
`n10 = round(|value| * 10^10)`, nearest, ties toward the larger integer, as
ECMAScript prescribes for `Number.prototype.toFixed` (the sign is handled
separately).  `u / den` is the floor and the tie test compares the remainder
against half the denominator. -/
def roundFixed10 (value : JsNumber) : ℕ :=
  let u := value.num.natAbs * 10 ^ 10
  u / value.den + (if value.den ≤ 2 * (u % value.den) then 1 else 0)

/-- `formatResult`: `fixed = parseFloat(value.toFixed(10))`, then (the
`Number.isFinite(fixed)` guard cannot fail on exact rationals)
`trimTrailingZeros(fixed.toString())`.  We print the sign, the integer part and
ten fractional digits of the rounded magnitude and trim; `-0` prints as `0`
because the minus sign is dropped when the rounded magnitude is zero. -/
def formatResult (value : JsNumber) : String :=
  let n10 := roundFixed10 value
  let intPart := n10 / 10 ^ 10
  let fracPart := n10 % 10 ^ 10
  let base :=
    (if value.isNeg ∧ n10 ≠ 0 then "-" else "") ++ natToString intPart ++ "."
      ++ padFrac fracPart
  trimTrailingZeros base

/-- Consume a run of decimal digits: returns the accumulated value, the number
of digits consumed and the rest of the input. -/
def readDigitsAux : List Char → Nat → Nat → Nat × Nat × List Char
  | [], acc, k => (acc, k, [])
  | c :: rest, acc, k =>
    if c.isDigit then readDigitsAux rest (10 * acc + (c.toNat - 48)) (k + 1)
    else (acc, k, c :: rest)

/-- Read a (possibly empty) run of decimal digits from the front. -/
def readDigits (l : List Char) : Nat × Nat × List Char := readDigitsAux l 0 0

/-- Whitespace skipped by `parseFloat`. -/
def isSpaceChar (c : Char) : Bool :=
  decide (c = ' ' ∨ c = '\t' ∨ c = '\n' ∨ c = '\r')

/-- Optional exponent part `e`/`E`, optional sign, digits; contributes nothing
when no digit follows the marker (then `parseFloat` stops before it). -/
def parseExponent (l : List Char) : ℤ :=
  match l with
  | [] => 0
  | c :: rest =>
    if c = 'e' ∨ c = 'E' then
      let sr : Bool × List Char :=
        match rest with
        | '-' :: r2 => (true, r2)
        | '+' :: r2 => (false, r2)
        | _ => (false, rest)
      let d := readDigits sr.2
      if d.2.1 = 0 then 0
      else if sr.1 then -(d.1 : ℤ) else (d.1 : ℤ)
    else 0

/-- JS `parseFloat` on the longest numeric prefix, idealised to exact
rationals: optional whitespace, optional sign, either the literal `Infinity`
(whose non-finite value the engine always rejects, so we return `none`) or
digits with an optional dot and an optional exponent; `none` when no digit is
found, standing for `NaN`. -/
def parseFloat (s : String) : Option JsNumber :=
  let l0 := s.data.dropWhile isSpaceChar
  let sl : Bool × List Char :=
    match l0 with
    | '-' :: rest => (true, rest)
    | '+' :: rest => (false, rest)
    | _ => (false, l0)
  if sl.2.take 8 = "Infinity".data then none
  else
    let ipart := readDigits sl.2
    let fpart :=
      match ipart.2.2 with
      | '.' :: rest => readDigits rest
      | _ => ((0 : Nat), (0 : Nat), ipart.2.2)
    if ipart.2.1 = 0 ∧ fpart.2.1 = 0 then none
    else
      let ex := parseExponent fpart.2.2
      let num0 : ℕ := ipart.1 * 10 ^ fpart.2.1 + fpart.1
      let mag : JsNumber :=
        if 0 ≤ ex then ⟨(num0 * 10 ^ ex.toNat : ℕ), 10 ^ fpart.2.1⟩
        else ⟨(num0 : ℕ), 10 ^ fpart.2.1 * 10 ^ (-ex).toNat⟩
      some (if sl.1 then mag.neg else mag)

/-- `compute(a, b, op)`: parse both operands (`Error` when either is not a
finite number), reject division by zero, otherwise apply the operator and
format. -/
def compute (a b : String) (op : Operator) : String :=
  match parseFloat a, parseFloat b with
  | some first, some second =>
    if op = Operator.div ∧ second.isZero then "Error"
    else formatResult (operators op first second)
  | _, _ => "Error"

/-- The four `useState` fields of the component. -/
structure CalculatorState where
  current : String
  previous : Option String
  operator : Option Operator
  overwrite : Bool
deriving DecidableEq, Repr

/-- `clearAll`: reset every field to its initial value. -/
def clearAll : CalculatorState :=
  { current := initialCurrent, previous := none, operator := none,
    overwrite := false }

/-- The state created at startup. -/
def initialState : CalculatorState := clearAll

/-- `handleDigit`'s candidate next operand: replace `current` on overwrite or
on a bare `'0'`, append otherwise. -/
def nextOperand (digit : String) (s : CalculatorState) : String :=
  if s.overwrite ∨ s.current = initialCurrent then digit
  else s.current ++ digit

/-- `handleDigit`.  `resetIfError()`'s writes survive for a field unless the
handler writes it again later; every read sees the pre-handler state. -/
def handleDigit (digit : String) (s : CalculatorState) : CalculatorState :=
  let next := nextOperand digit s
  if MAX_LENGTH < (stripFirstMinus next).length then
    if s.current = "Error" then clearAll else s
  else if s.overwrite then
    { current := next,
      previous := if s.current = "Error" then none else s.previous,
      operator := if s.current = "Error" then none else s.operator,
      overwrite := false }
  else
    { current := if next = "" then initialCurrent else next,
      previous := if s.current = "Error" then none else s.previous,
      operator := if s.current = "Error" then none else s.operator,
      overwrite := if s.current = "Error" then false else s.overwrite }

/-- `handleDecimal`. -/
def handleDecimal (s : CalculatorState) : CalculatorState :=
  if '.' ∈ s.current.data then
    if s.current = "Error" then clearAll else s
  else if s.overwrite then
    { current := "0.",
      previous := if s.current = "Error" then none else s.previous,
      operator := if s.current = "Error" then none else s.operator,
      overwrite := false }
  else if MAX_LENGTH < (stripFirstMinus (s.current ++ ".")).length then
    if s.current = "Error" then clearAll else s
  else
    { current := s.current ++ ".",
      previous := if s.current = "Error" then none else s.previous,
      operator := if s.current = "Error" then none else s.operator,
      overwrite := if s.current = "Error" then false else s.overwrite }

/-- `handleOperator`.  When an operator and a previous operand are pending and
`overwrite` is false, the chain is collapsed; otherwise `setPrevious(current)`
stores the stale `current` — even when `resetIfError` has just scheduled a
reset, which is why an error state leaks `"Error"` into `previous` here. -/
def handleOperator (nextOp : Operator) (s : CalculatorState) : CalculatorState :=
  match s.operator, s.previous with
  | some op, some prev =>
    if s.overwrite then
      { current := if s.current = "Error" then initialCurrent else s.current,
        previous := some s.current,
        operator := some nextOp,
        overwrite := true }
    else
      let result := compute prev s.current op
      { current := result, previous := some result, operator := some nextOp,
        overwrite := true }
  | _, _ =>
    { current := if s.current = "Error" then initialCurrent else s.current,
      previous := some s.current,
      operator := some nextOp,
      overwrite := true }

/-- `handleEqual`: `if (!operator || previous === null) return;` (the writes of
`resetIfError` still apply on that early return), else compute and clear the
pending pair. -/
def handleEqual (s : CalculatorState) : CalculatorState :=
  match s.operator, s.previous with
  | some op, some prev =>
    { current := compute prev s.current op, previous := none, operator := none,
      overwrite := true }
  | _, _ => if s.current = "Error" then clearAll else s

/-- `handleDelete`: overwrite clears to `'0'`, a one-character operand resets
to `'0'`, otherwise `slice(0, -1)` drops the last character. -/
def handleDelete (s : CalculatorState) : CalculatorState :=
  if s.overwrite then
    { current := initialCurrent,
      previous := if s.current = "Error" then none else s.previous,
      operator := if s.current = "Error" then none else s.operator,
      overwrite := false }
  else if s.current.length ≤ 1 then
    { current := initialCurrent,
      previous := if s.current = "Error" then none else s.previous,
      operator := if s.current = "Error" then none else s.operator,
      overwrite := if s.current = "Error" then false else s.overwrite }
  else
    { current := ⟨s.current.data.dropLast⟩,
      previous := if s.current = "Error" then none else s.previous,
      operator := if s.current = "Error" then none else s.operator,
      overwrite := if s.current = "Error" then false else s.overwrite }

/-- The label of a digit key, `'0'` … `'9'`. -/
def digitLabel : Fin 10 → String
  | 0 => "0"
  | 1 => "1"
  | 2 => "2"
  | 3 => "3"
  | 4 => "4"
  | 5 => "5"
  | 6 => "6"
  | 7 => "7"
  | 8 => "8"
  | 9 => "9"

/-- The actions reachable from the keypad (`handleButtonClick`'s dispatch). -/
inductive Action where
  | digit (d : Fin 10)
  | decimal
  | op (o : Operator)
  | equal
  | clear
  | delete
deriving DecidableEq, Repr

/-- `handleButtonClick`: dispatch one action to its handler. -/
def applyAction (s : CalculatorState) (a : Action) : CalculatorState :=
  match a with
  | Action.digit d => handleDigit (digitLabel d) s
  | Action.decimal => handleDecimal s
  | Action.op o => handleOperator o s
  | Action.equal => handleEqual s
  | Action.clear => clearAll
  | Action.delete => handleDelete s

/-- Run a list of keypad actions from the startup state. -/
def run (l : List Action) : CalculatorState :=
  l.foldl applyAction initialState

/-- `displayValue = useMemo(() => sanitizeNumber(current), [current])`. -/
def displayValue (s : CalculatorState) : String := sanitizeNumber s.current

/-- Operand-entry actions: the ones that never route an `evaluate` result into
`current` (digit, decimal, clear, delete). -/
def entryAction : Action → Bool
  | Action.digit _ => true
  | Action.decimal => true
  | Action.clear => true
  | Action.delete => true
  | Action.op _ => false
  | Action.equal => false

/-- Shape of an operand built purely from digit and dot keys: nonempty, at
most 18 characters, all digits or a dot. -/
def entryInvStr (t : String) : Prop :=
  t.data ≠ [] ∧ t.data.length ≤ MAX_LENGTH ∧
    ∀ c ∈ t.data, c.isDigit = true ∨ c = '.'

/-- The operand-shape invariant maintained by the entry actions. -/
def entryInv (s : CalculatorState) : Prop := entryInvStr s.current

/-! ### Basic facts about the string helpers -/

theorem String.mk_data (s : String) : (⟨s.data⟩ : String) = s := rfl

theorem String.mk_eq_empty {l : List Char} : (⟨l⟩ : String) = "" ↔ l = [] := by
  constructor
  · intro h
    exact congrArg String.data h
  · rintro rfl
    rfl

theorem removeFirst_of_not_mem {c : Char} {l : List Char} (h : c ∉ l) :
    removeFirst c l = l := by
  induction l with
  | nil => rfl
  | cons a rest ih =>
    rw [removeFirst]
    rw [if_neg (by rintro rfl; exact h (List.mem_cons_self a rest))]
    rw [ih (fun hm => h (List.mem_cons_of_mem a hm))]

theorem stripFirstMinus_of_not_mem {s : String} (h : '-' ∉ s.data) :
    stripFirstMinus s = s := by
  unfold stripFirstMinus
  rw [removeFirst_of_not_mem h]

theorem stripFirstMinus_eq_dropLeadingMinus {s : String}
    (h : '-' ∉ s.data.drop 1) : stripFirstMinus s = dropLeadingMinus s := by
  cases s with
  | mk l =>
    cases l with
    | nil => rfl
    | cons a tl =>
      simp only [String.data] at h
      simp only [List.drop_succ_cons, List.drop_zero] at h
      unfold stripFirstMinus dropLeadingMinus
      by_cases ha : a = '-'
      · subst ha
        simp [removeFirst]
      · simp [removeFirst, ha, removeFirst_of_not_mem h]

/-- Run-of-the-mill foldl invariance: a property preserved by every allowed
step holds after any run over allowed actions. -/
theorem foldl_invariant (P : CalculatorState → Prop) (Q : Action → Bool)
    (step : ∀ s a, Q a = true → P s → P (applyAction s a)) :
    ∀ (l : List Action) (s : CalculatorState),
      (∀ a ∈ l, Q a = true) → P s → P (List.foldl applyAction s l) := by
  intro l
  induction l with
  | nil => intro s _ hs; exact hs
  | cons a t ih =>
    intro s hq hs
    exact ih (applyAction s a) (fun b hb => hq b (List.mem_cons_of_mem a hb))
      (step s a (hq a (List.mem_cons_self a t)) hs)

theorem String.ne_empty_iff {s : String} : s ≠ "" ↔ s.data ≠ [] := by
  cases s with
  | mk l => exact not_congr String.mk_eq_empty

theorem append_ne_empty_right {a b : String} (hb : b ≠ "") : a ++ b ≠ "" := by
  rw [String.ne_empty_iff, String.data_append]
  rw [String.ne_empty_iff] at hb
  simp [hb]

theorem digitLabel_ne_empty : ∀ d : Fin 10, digitLabel d ≠ "" := by decide

theorem append_digitLabel_ne_empty (t : String) (d : Fin 10) :
    t ++ digitLabel d ≠ "" :=
  append_ne_empty_right (digitLabel_ne_empty d)

theorem append_dot_ne_empty (t : String) : t ++ "." ≠ "" :=
  append_ne_empty_right (by decide)

theorem natToString_ne_empty (n : ℕ) : natToString n ≠ "" := by
  unfold natToString
  split_ifs with h
  · decide
  · rw [String.ne_empty_iff]
    show natToDigitsAux (n + 1) n ≠ []
    unfold natToDigitsAux
    rw [if_neg h]
    simp

theorem padFrac_ne_empty (n : ℕ) : padFrac n ≠ "" :=
  append_ne_empty_right (natToString_ne_empty n)

theorem trimTrailingZeros_ne_empty {s : String} (hs : s ≠ "") :
    trimTrailingZeros s ≠ "" := by
  unfold trimTrailingZeros
  by_cases h1 : '.' ∉ s.data
  · rw [if_pos h1]
    exact hs
  · rw [if_neg h1]
    show (if trimCore s.data.reverse = [] then initialCurrent
      else ⟨(trimCore s.data.reverse).reverse⟩) ≠ ""
    by_cases h2 : trimCore s.data.reverse = []
    · rw [if_pos h2]
      decide
    · rw [if_neg h2]
      rw [String.ne_empty_iff]
      simpa using h2

theorem formatResult_ne_empty (v : JsNumber) : formatResult v ≠ "" := by
  unfold formatResult
  exact trimTrailingZeros_ne_empty (append_ne_empty_right (padFrac_ne_empty _))

theorem compute_ne_empty (a b : String) (op : Operator) :
    compute a b op ≠ "" := by
  unfold compute
  cases parseFloat a with
  | none =>
    cases parseFloat b with
    | none => exact show ("Error" : String) ≠ "" by decide
    | some q => exact show ("Error" : String) ≠ "" by decide
  | some p =>
    cases parseFloat b with
    | none => exact show ("Error" : String) ≠ "" by decide
    | some q =>
      show (if op = Operator.div ∧ q.isZero = true then "Error"
        else formatResult (operators op p q)) ≠ ""
      split_ifs with h
      · decide
      · exact formatResult_ne_empty _

theorem initialCurrent_ne_empty : initialCurrent ≠ "" := by decide

theorem dropLast_ne_empty_of (s : String) (h : ¬ s.length ≤ 1) :
    (⟨s.data.dropLast⟩ : String) ≠ "" := by
  rw [String.ne_empty_iff]
  intro hcon
  have hlen := congrArg List.length hcon
  rw [List.length_dropLast] at hlen
  simp only [List.length_nil] at hlen
  exact h (show s.data.length ≤ 1 by omega)

/-! ### Branch-by-branch descriptions of the handlers on non-error states -/

theorem nextOperand_ne_empty {digit : String} (s : CalculatorState)
    (hd : digit ≠ "") : nextOperand digit s ≠ "" := by
  unfold nextOperand
  split_ifs
  · exact hd
  · exact append_ne_empty_right hd

theorem handleDigit_reject {digit : String} {s : CalculatorState}
    (herr : s.current ≠ "Error")
    (h : MAX_LENGTH < (stripFirstMinus (nextOperand digit s)).length) :
    handleDigit digit s = s := by
  simp only [handleDigit, if_pos h, if_neg herr]

theorem handleDigit_overwrite {digit : String} {s : CalculatorState}
    (herr : s.current ≠ "Error")
    (h : ¬ MAX_LENGTH < (stripFirstMinus (nextOperand digit s)).length)
    (hov : s.overwrite = true) :
    handleDigit digit s
      = { current := nextOperand digit s, previous := s.previous,
          operator := s.operator, overwrite := false } := by
  simp only [handleDigit, if_neg h, if_pos hov, if_neg herr]

theorem handleDigit_append {digit : String} {s : CalculatorState}
    (herr : s.current ≠ "Error")
    (h : ¬ MAX_LENGTH < (stripFirstMinus (nextOperand digit s)).length)
    (hov : s.overwrite = false) (hd : digit ≠ "") :
    handleDigit digit s
      = { current := nextOperand digit s, previous := s.previous,
          operator := s.operator, overwrite := s.overwrite } := by
  have hov' : ¬ (s.overwrite = true) := by rw [hov]; simp
  simp only [handleDigit, if_neg h, if_neg hov', if_neg herr,
    if_neg (nextOperand_ne_empty s hd)]

theorem handleDecimal_dot {s : CalculatorState} (herr : s.current ≠ "Error")
    (hdot : '.' ∈ s.current.data) : handleDecimal s = s := by
  simp only [handleDecimal, if_pos hdot, if_neg herr]

theorem handleDecimal_overwrite {s : CalculatorState}
    (herr : s.current ≠ "Error") (hdot : '.' ∉ s.current.data)
    (hov : s.overwrite = true) :
    handleDecimal s
      = { current := "0.", previous := s.previous, operator := s.operator,
          overwrite := false } := by
  simp only [handleDecimal, if_neg hdot, if_pos hov, if_neg herr]

theorem handleDecimal_reject {s : CalculatorState}
    (herr : s.current ≠ "Error") (hdot : '.' ∉ s.current.data)
    (hov : s.overwrite = false)
    (h : MAX_LENGTH < (stripFirstMinus (s.current ++ ".")).length) :
    handleDecimal s = s := by
  have hov' : ¬ (s.overwrite = true) := by rw [hov]; simp
  simp only [handleDecimal, if_neg hdot, if_neg hov', if_pos h, if_neg herr]

theorem handleDecimal_append {s : CalculatorState}
    (herr : s.current ≠ "Error") (hdot : '.' ∉ s.current.data)
    (hov : s.overwrite = false)
    (h : ¬ MAX_LENGTH < (stripFirstMinus (s.current ++ ".")).length) :
    handleDecimal s
      = { current := s.current ++ ".", previous := s.previous,
          operator := s.operator, overwrite := s.overwrite } := by
  have hov' : ¬ (s.overwrite = true) := by rw [hov]; simp
  simp only [handleDecimal, if_neg hdot, if_neg hov', if_neg h, if_neg herr]

theorem handleDelete_overwrite {s : CalculatorState}
    (herr : s.current ≠ "Error") (hov : s.overwrite = true) :
    handleDelete s
      = { current := initialCurrent, previous := s.previous,
          operator := s.operator, overwrite := false } := by
  simp only [handleDelete, if_pos hov, if_neg herr]

theorem handleDelete_short {s : CalculatorState}
    (herr : s.current ≠ "Error") (hov : s.overwrite = false)
    (hlen : s.current.length ≤ 1) :
    handleDelete s
      = { current := initialCurrent, previous := s.previous,
          operator := s.operator, overwrite := s.overwrite } := by
  have hov' : ¬ (s.overwrite = true) := by rw [hov]; simp
  simp only [handleDelete, if_neg hov', if_pos hlen, if_neg herr]

theorem handleDelete_chop {s : CalculatorState}
    (herr : s.current ≠ "Error") (hov : s.overwrite = false)
    (hlen : ¬ s.current.length ≤ 1) :
    handleDelete s
      = { current := ⟨s.current.data.dropLast⟩, previous := s.previous,
          operator := s.operator, overwrite := s.overwrite } := by
  have hov' : ¬ (s.overwrite = true) := by rw [hov]; simp
  simp only [handleDelete, if_neg hov', if_neg hlen, if_neg herr]

/-- Every action keeps `current` nonempty. -/
theorem current_ne_empty_step (s : CalculatorState) (a : Action)
    (hs : s.current ≠ "") : (applyAction s a).current ≠ "" := by
  cases a with
  | digit d =>
    simp only [applyAction, handleDigit]
    split_ifs <;>
      simp_all [clearAll, initialState, digitLabel_ne_empty,
        append_digitLabel_ne_empty, initialCurrent_ne_empty] <;>
      exact nextOperand_ne_empty s (digitLabel_ne_empty d)
  | decimal =>
    simp only [applyAction, handleDecimal]
    split_ifs <;>
      simp_all [clearAll, initialState, append_dot_ne_empty,
        initialCurrent_ne_empty]
  | op o =>
    simp only [applyAction, handleOperator]
    cases hO : s.operator <;> cases hP : s.previous <;>
      simp_all [clearAll, initialState, compute_ne_empty,
        initialCurrent_ne_empty] <;>
      split_ifs <;> simp_all [compute_ne_empty, initialCurrent_ne_empty]
  | equal =>
    simp only [applyAction, handleEqual]
    cases hO : s.operator <;> cases hP : s.previous <;>
      simp_all [clearAll, initialState, compute_ne_empty,
        initialCurrent_ne_empty] <;>
      split_ifs <;> simp_all [compute_ne_empty, initialCurrent_ne_empty]
  | clear =>
    exact initialCurrent_ne_empty
  | delete =>
    simp only [applyAction, handleDelete]
    split_ifs <;> try exact initialCurrent_ne_empty
    all_goals rename_i hov hlen herr
    all_goals exact dropLast_ne_empty_of _ hlen

/-- Every action preserves "operator present iff previous present". -/
theorem pairing_step (s : CalculatorState) (a : Action)
    (hs : s.operator.isSome = s.previous.isSome) :
    (applyAction s a).operator.isSome = (applyAction s a).previous.isSome := by
  cases a with
  | digit d =>
    simp only [applyAction, handleDigit]
    split_ifs <;> simp_all [clearAll, initialState] <;>
      (try split_ifs) <;> simp_all
  | decimal =>
    simp only [applyAction, handleDecimal]
    split_ifs <;> simp_all [clearAll, initialState] <;>
      (try split_ifs) <;> simp_all
  | op o =>
    simp only [applyAction, handleOperator]
    cases hO : s.operator <;> cases hP : s.previous <;>
      simp_all [clearAll, initialState] <;> (try split_ifs) <;> simp_all
  | equal =>
    simp only [applyAction, handleEqual]
    cases hO : s.operator <;> cases hP : s.previous <;>
      simp_all [clearAll, initialState] <;> (try split_ifs) <;>
      simp_all [clearAll, initialState]
  | clear => rfl
  | delete =>
    simp only [applyAction, handleDelete]
    split_ifs <;> simp_all [clearAll, initialState] <;>
      (try split_ifs) <;> simp_all

theorem entryInv_current_ne_error {s : CalculatorState} (h : entryInv s) :
    s.current ≠ "Error" := by
  intro hc
  have hall := h.2.2
  rw [hc] at hall
  exact absurd (hall 'E' (by decide)) (by decide)

theorem stripFirstMinus_of_digits {s : String}
    (h : ∀ c ∈ s.data, c.isDigit = true ∨ c = '.') :
    stripFirstMinus s = s := by
  apply stripFirstMinus_of_not_mem
  intro hm
  rcases h '-' hm with h1 | h1
  · exact absurd h1 (by decide)
  · exact absurd h1 (by decide)

theorem digitLabel_chars :
    ∀ d : Fin 10, ∀ c ∈ (digitLabel d).data, c.isDigit = true ∨ c = '.' := by
  decide

theorem nextOperand_chars {d : Fin 10} {s : CalculatorState}
    (hchars : ∀ c ∈ s.current.data, c.isDigit = true ∨ c = '.') :
    ∀ c ∈ (nextOperand (digitLabel d) s).data, c.isDigit = true ∨ c = '.' := by
  unfold nextOperand
  split_ifs with hb
  · exact digitLabel_chars d
  · intro c hc
    rw [String.data_append] at hc
    rcases List.mem_append.1 hc with h | h
    · exact hchars c h
    · exact digitLabel_chars d c h

theorem entryInvStr_zero : entryInvStr initialCurrent :=
  ⟨by decide, by decide, by decide⟩

theorem entryInvStr_zeroDot : entryInvStr "0." :=
  ⟨by decide, by decide, by decide⟩

/-- Digit, decimal, clear and delete keep `current` a nonempty digit-or-dot
string of at most 18 characters. -/
theorem entryInv_step (s : CalculatorState) (a : Action)
    (ha : entryAction a = true) (hinv : entryInv s) :
    entryInv (applyAction s a) := by
  obtain ⟨hne, hlen, hchars⟩ := hinv
  have herr : s.current ≠ "Error" :=
    entryInv_current_ne_error ⟨hne, hlen, hchars⟩
  cases a with
  | op o => simp [entryAction] at ha
  | equal => simp [entryAction] at ha
  | clear => exact entryInvStr_zero
  | digit d =>
    simp only [applyAction]
    have hnextc := @nextOperand_chars d s hchars
    have hnexte := nextOperand_ne_empty s (digitLabel_ne_empty d)
    by_cases h1 :
        MAX_LENGTH < (stripFirstMinus (nextOperand (digitLabel d) s)).length
    · rw [handleDigit_reject herr h1]
      exact ⟨hne, hlen, hchars⟩
    · have hlen2 : (nextOperand (digitLabel d) s).data.length ≤ MAX_LENGTH := by
        rw [stripFirstMinus_of_digits hnextc] at h1
        exact Nat.not_lt.mp h1
      cases hov : s.overwrite with
      | true =>
        rw [handleDigit_overwrite herr h1 hov]
        exact ⟨String.ne_empty_iff.mp hnexte, hlen2, hnextc⟩
      | false =>
        rw [handleDigit_append herr h1 hov (digitLabel_ne_empty d)]
        exact ⟨String.ne_empty_iff.mp hnexte, hlen2, hnextc⟩
  | decimal =>
    simp only [applyAction]
    have hdotc : ∀ c ∈ (s.current ++ ".").data,
        c.isDigit = true ∨ c = '.' := by
      intro c hc
      rw [String.data_append] at hc
      rcases List.mem_append.1 hc with h | h
      · exact hchars c h
      · right
        simpa using h
    by_cases hdot : '.' ∈ s.current.data
    · rw [handleDecimal_dot herr hdot]
      exact ⟨hne, hlen, hchars⟩
    · cases hov : s.overwrite with
      | true =>
        rw [handleDecimal_overwrite herr hdot hov]
        exact entryInvStr_zeroDot
      | false =>
        by_cases h1 :
            MAX_LENGTH < (stripFirstMinus (s.current ++ ".")).length
        · rw [handleDecimal_reject herr hdot hov h1]
          exact ⟨hne, hlen, hchars⟩
        · rw [handleDecimal_append herr hdot hov h1]
          refine ⟨String.ne_empty_iff.mp (append_dot_ne_empty _), ?_, hdotc⟩
          rw [stripFirstMinus_of_digits hdotc] at h1
          exact Nat.not_lt.mp h1
  | delete =>
    simp only [applyAction]
    cases hov : s.overwrite with
    | true =>
      rw [handleDelete_overwrite herr hov]
      exact entryInvStr_zero
    | false =>
      by_cases hsh : s.current.length ≤ 1
      · rw [handleDelete_short herr hov hsh]
        exact entryInvStr_zero
      · rw [handleDelete_chop herr hov hsh]
        refine ⟨String.ne_empty_iff.mp (dropLast_ne_empty_of _ hsh), ?_, ?_⟩
        · calc s.current.data.dropLast.length ≤ s.current.data.length := by
                rw [List.length_dropLast]; omega
            _ ≤ MAX_LENGTH := hlen
        · intro c hc
          exact hchars c (List.dropLast_subset _ hc)

/-! ### Claim theorems -/

set_option maxRecDepth 40000

/-- Claim C7: the display value equals `current`, except that both the empty
string and the `"Error"` sentinel render as `"0"`. -/
theorem claim_C7 (s : CalculatorState) :
    displayValue s
      = if s.current = "Error" ∨ s.current = "" then "0" else s.current := by
  unfold displayValue sanitizeNumber initialCurrent
  split_ifs <;> simp_all

/-- Claim C5: for every operand string `a` and every `b` that parses to zero,
`evaluate(a, b, divide)` is the `"Error"` sentinel, whether or not `a` parses
to a finite number. -/
theorem claim_C5 (a b : String) (q : JsNumber) (hb : parseFloat b = some q)
    (h0 : q.isZero = true) : compute a b Operator.div = "Error" := by
  unfold compute
  rw [hb]
  cases ha : parseFloat a with
  | none => rfl
  | some p => simp [h0]

theorem claim_C5_witness :
    parseFloat "0" = some ⟨0, 1⟩ ∧ (⟨0, 1⟩ : JsNumber).isZero = true ∧
      compute "7" "0" Operator.div = "Error" :=
  ⟨by decide, by decide, claim_C5 "7" "0" ⟨0, 1⟩ (by decide) (by decide)⟩

/-- Claim C3: on a non-error state, pressing an operator collapses the pending
chain (when an operator is pending, `previous` is present and `overwrite` is
false) into both `previous` and `current`, and otherwise copies `current` into
`previous`; it always installs the new operator and sets `overwrite`. -/
theorem claim_C3 (s : CalculatorState) (nextOp : Operator)
    (h : s.current ≠ "Error") :
    (∀ pop prev, s.operator = some pop → s.previous = some prev →
      s.overwrite = false →
      handleOperator nextOp s
        = { current := compute prev s.current pop,
            previous := some (compute prev s.current pop),
            operator := some nextOp, overwrite := true }) ∧
    (s.operator = none ∨ s.previous = none ∨ s.overwrite = true →
      handleOperator nextOp s
        = { current := s.current, previous := some s.current,
            operator := some nextOp, overwrite := true }) := by
  unfold handleOperator
  cases hO : s.operator with
  | none => cases hP : s.previous <;> simp_all
  | some pop =>
    cases hP : s.previous with
    | none => simp_all
    | some prev =>
      cases hw : s.overwrite <;> simp_all

theorem claim_C3_witness :
    ("3" : String) ≠ "Error" ∧
      handleOperator Operator.mul
          { current := "3", previous := some "2",
            operator := some Operator.add, overwrite := false }
        = { current := "5", previous := some "5",
            operator := some Operator.mul, overwrite := true } :=
  ⟨by decide,
    ((claim_C3
        { current := "3", previous := some "2",
          operator := some Operator.add, overwrite := false }
        Operator.mul (by decide)).1 Operator.add "2" rfl rfl rfl).trans
      (by decide)⟩

/-- Claim C4: on a non-error state, `equal` is a no-op when no operator is
pending; with a pending operator and previous operand it sets `current` to the
evaluated result, clears `previous` and `operator`, and sets `overwrite`. -/
theorem claim_C4 (s : CalculatorState) (h : s.current ≠ "Error") :
    (s.operator = none → handleEqual s = s) ∧
    (∀ op prev, s.operator = some op → s.previous = some prev →
      handleEqual s
        = { current := compute prev s.current op, previous := none,
            operator := none, overwrite := true }) := by
  unfold handleEqual
  cases hO : s.operator <;> cases hP : s.previous <;> simp_all

theorem claim_C4_witness :
    (run [Action.digit 2, Action.op Operator.add, Action.digit 3]).current
        ≠ "Error" ∧
      handleEqual (run [Action.digit 2, Action.op Operator.add, Action.digit 3])
        = { current := "5", previous := none, operator := none,
            overwrite := true } :=
  ⟨by decide,
    ((claim_C4 (run [Action.digit 2, Action.op Operator.add, Action.digit 3])
        (by decide)).2 Operator.add "2" (by decide) (by decide)).trans
      (by decide)⟩

/-- Claim C1 is wrong about the code: pressing an operator in the error state
does not behave as on a freshly reset state.  `resetIfError` only schedules
the reset through `useState` setters, the rest of the handler still reads the
stale values, and its `setPrevious(current)` stores the stale `"Error"` —
the final state after `1 ÷ 0 = +` has `previous = some "Error"`, not
`some "0"`; a following `3 =` therefore shows `"Error"` again instead of
`"3"`. -/
theorem claim_C1 :
    run [Action.digit 1, Action.op Operator.div, Action.digit 0, Action.equal]
        = { current := "Error", previous := none, operator := none,
            overwrite := true } ∧
      (run [Action.digit 1, Action.op Operator.div, Action.digit 0,
            Action.equal, Action.op Operator.add]).previous = some "Error" ∧
      (run [Action.digit 1, Action.op Operator.div, Action.digit 0,
            Action.equal, Action.op Operator.add, Action.digit 3,
            Action.equal]).current = "Error" := by
  refine ⟨by decide, by decide, by decide⟩

/-- Claim C2's global form is false: `operator`/`equal` store an `evaluate`
result in `current` without any length cap; adding two 18-digit operands
produces a 19-character `current`. -/
theorem claim_C2_counterexample :
    MAX_LENGTH <
      (stripFirstMinus (run (List.replicate 18 (Action.digit 9)
        ++ [Action.op Operator.add] ++ List.replicate 18 (Action.digit 9)
        ++ [Action.equal])).current).length := by
  decide

/-- Claim C9: in every state reachable from the startup state, an operator is
pending exactly when a previous operand is stored; every keypad action
preserves this. -/
theorem claim_C9 (l : List Action) :
    (run l).operator.isSome = (run l).previous.isSome :=
  foldl_invariant (fun s => s.operator.isSome = s.previous.isSome)
    (fun _ => true) (fun s a _ hs => pairing_step s a hs) l initialState
    (fun _ _ => rfl) rfl

/-- Claim C10: in every state reachable from the startup state, `current` is
nonempty — every code path that could empty it substitutes `"0"`. -/
theorem claim_C10 (l : List Action) : (run l).current ≠ "" :=
  foldl_invariant (fun s => s.current ≠ "") (fun _ => true)
    (fun s a _ hs => current_ne_empty_step s a hs) l initialState
    (fun _ _ => rfl) (by decide)

/-- Claim C2, amended: restricted to the operand-entry actions (digit,
decimal, clear, delete) the sign-stripped length of `current` never exceeds
18. The unrestricted claim fails (`claim_C2_counterexample`): `operator` and
`equal` write `evaluate` results into `current` with no length cap. -/
theorem claim_C2 (l : List Action) (h : ∀ a ∈ l, entryAction a = true) :
    (stripFirstMinus (run l).current).length ≤ MAX_LENGTH := by
  have hinv : entryInv (run l) :=
    foldl_invariant entryInv entryAction entryInv_step l initialState h
      entryInvStr_zero
  obtain ⟨hne, hlen, hchars⟩ := hinv
  rw [stripFirstMinus_of_digits hchars]
  exact hlen

theorem claim_C2_witness :
    (∀ a ∈ [Action.digit 1, Action.decimal, Action.digit 5, Action.delete,
        Action.clear, Action.digit 7], entryAction a = true) ∧
      (stripFirstMinus (run [Action.digit 1, Action.decimal, Action.digit 5,
        Action.delete, Action.clear, Action.digit 7]).current).length
        ≤ MAX_LENGTH :=
  ⟨by decide, claim_C2 _ (by decide)⟩

/-- Claim C6: on a non-error state whose operand carries a minus sign only in
front, `digit(d)` replaces `current` with `d` when `overwrite` is set or
`current` is `"0"` and appends `d` otherwise; it is a complete no-op when the
result, leading minus ignored, would exceed 18 characters; and a successful
overwrite-replace clears `overwrite`. -/
theorem claim_C6 (s : CalculatorState) (d : Fin 10)
    (herr : s.current ≠ "Error") (hm : '-' ∉ s.current.data.drop 1) :
    (MAX_LENGTH < (dropLeadingMinus (nextOperand (digitLabel d) s)).length →
      handleDigit (digitLabel d) s = s) ∧
    (¬ MAX_LENGTH < (dropLeadingMinus (nextOperand (digitLabel d) s)).length →
      (s.overwrite = true →
        handleDigit (digitLabel d) s
          = { current := nextOperand (digitLabel d) s,
              previous := s.previous, operator := s.operator,
              overwrite := false }) ∧
      (s.overwrite = false →
        handleDigit (digitLabel d) s
          = { current := nextOperand (digitLabel d) s,
              previous := s.previous, operator := s.operator,
              overwrite := s.overwrite })) := by
  have hnom : ∀ e : Fin 10, '-' ∉ (digitLabel e).data := by decide
  have hm2 : '-' ∉ (nextOperand (digitLabel d) s).data.drop 1 := by
    unfold nextOperand
    split_ifs with hb
    · intro hmem
      exact absurd (List.mem_of_mem_drop hmem) (hnom d)
    · rw [String.data_append]
      cases hc : s.current.data with
      | nil =>
        rw [List.nil_append]
        intro hmem
        exact absurd (List.mem_of_mem_drop hmem) (hnom d)
      | cons a tl =>
        rw [hc] at hm
        simp only [List.drop_succ_cons, List.drop_zero] at hm
        simp only [List.cons_append, List.drop_succ_cons, List.drop_zero]
        intro hmem
        rcases List.mem_append.1 hmem with hmem | hmem
        · exact hm hmem
        · exact absurd hmem (hnom d)
  rw [← stripFirstMinus_eq_dropLeadingMinus hm2]
  refine ⟨fun h1 => handleDigit_reject herr h1, fun h1 => ⟨?_, ?_⟩⟩
  · intro hov
    exact handleDigit_overwrite herr h1 hov
  · intro hov
    exact handleDigit_append herr h1 hov (digitLabel_ne_empty d)

theorem claim_C6_witness :
    (("5" : String) ≠ "Error") ∧
      ('-' ∉ ("5" : String).data.drop 1) ∧
      handleDigit "3"
          { current := "5", previous := none, operator := none,
            overwrite := false }
        = { current := "53", previous := none, operator := none,
            overwrite := false } :=
  ⟨by decide, by decide,
    (((claim_C6
        { current := "5", previous := none, operator := none,
          overwrite := false } 3 (by decide) (by decide)).2
      (by decide)).2 rfl).trans (by decide)⟩

/-! ### Idempotence of the trailing-zero trimming -/

theorem mem_of_head?_dropWhile {p : Char → Bool} {l : List Char} {a : Char}
    (h : (l.dropWhile p).head? = some a) : a ∈ l :=
  (List.dropWhile_sublist p).subset
    (List.mem_of_mem_head? (Option.mem_def.mpr h))

theorem trimR1_of_not_mem {l : List Char} (h : '.' ∉ l) : trimR1 l = l := by
  unfold trimR1
  rw [if_neg]
  rintro ⟨_, h2⟩
  exact h (mem_of_head?_dropWhile h2)

theorem trimR2_of_not_mem {l : List Char} (h : '.' ∉ l) : trimR2 l = l := by
  unfold trimR2
  rw [if_neg]
  rintro ⟨_, _, h3⟩
  have hmem : '.' ∈ (l.dropWhile (fun c => c == '0')).tail :=
    (List.dropWhile_sublist Char.isDigit).subset
      (List.mem_of_mem_head? (Option.mem_def.mpr h3))
  exact h ((List.dropWhile_sublist (fun c => c == '0')).subset
    (List.tail_subset _ hmem))

theorem trimR3_of_not_mem {l : List Char} (h : '.' ∉ l) : trimR3 l = l := by
  unfold trimR3
  rw [if_neg]
  intro h3
  exact h (List.mem_of_mem_head? (Option.mem_def.mpr h3))

theorem trimCore_of_not_mem {l : List Char} (h : '.' ∉ l) : trimCore l = l := by
  unfold trimCore
  rw [trimR1_of_not_mem h, trimR2_of_not_mem h, trimR3_of_not_mem h]

/-- A list whose head is a digit `1`–`9` is untouched by all three stages. -/
theorem trimCore_cons_nonzero {d : Char} {r : List Char}
    (h1 : '1' ≤ d) (h9 : d ≤ '9') : trimCore (d :: r) = d :: r := by
  have hd0 : ¬ d = '0' := by
    rintro rfl
    exact absurd h1 (by decide)
  have hdd : ¬ d = '.' := by
    rintro rfl
    exact absurd h1 (by decide)
  have htw : (d :: r).takeWhile (fun c => c == '0') = [] := by
    rw [List.takeWhile_cons]
    simp [hd0]
  have e1 : trimR1 (d :: r) = d :: r := by
    unfold trimR1
    rw [if_neg]
    rintro ⟨hA, _⟩
    exact hA htw
  have e2 : trimR2 (d :: r) = d :: r := by
    unfold trimR2
    rw [if_neg]
    rintro ⟨hA, _, _⟩
    exact hA htw
  have e3 : trimR3 (d :: r) = d :: r := by
    unfold trimR3
    rw [if_neg]
    intro hA
    rw [List.head?_cons] at hA
    exact hdd (Option.some.inj hA)
  unfold trimCore
  rw [e1, e2, e3]

/-- When the string has exactly one dot and the zero run reaches the dot, the
part before the run (in reversed order: the part after the dot) is dot free. -/
theorem not_mem_dropWhile_tail_of_count {l : List Char} (hc : l.count '.' = 1)
    {r : List Char} (hdw : l.dropWhile (fun c => c == '0') = '.' :: r) :
    '.' ∉ r := by
  have hcount : (l.takeWhile (fun c => c == '0')).count '.'
      + (l.dropWhile (fun c => c == '0')).count '.' = 1 := by
    rw [← List.count_append, List.takeWhile_append_dropWhile]
    exact hc
  have htw : (l.takeWhile (fun c => c == '0')).count '.' = 0 := by
    rw [List.count_eq_zero]
    intro hmem
    have := List.mem_takeWhile_imp hmem
    simp at this
  rw [htw, hdw, List.count_cons_self] at hcount
  exact List.count_eq_zero.mp (by omega)

theorem dropWhile_eq_cons_of_head? {p : Char → Bool} {l : List Char} {a : Char}
    (h : (l.dropWhile p).head? = some a) :
    l.dropWhile p = a :: (l.dropWhile p).tail := by
  cases hdw : l.dropWhile p with
  | nil =>
    rw [hdw] at h
    simp at h
  | cons b r =>
    rw [hdw] at h
    simp only [List.head?_cons, Option.some.injEq] at h
    rw [h]
    rfl

/-- On a list holding exactly one dot, `trimCore` is idempotent whenever its
result still holds the dot. -/
theorem trimCore_idem {l : List Char} (hc : l.count '.' = 1)
    (hmem : '.' ∈ trimCore l) : trimCore (trimCore l) = trimCore l := by
  by_cases hr1 : l.takeWhile (fun c => c == '0') ≠ [] ∧
      (l.dropWhile (fun c => c == '0')).head? = some '.'
  · have hdw := dropWhile_eq_cons_of_head? hr1.2
    have hnr : '.' ∉ (l.dropWhile (fun c => c == '0')).tail :=
      not_mem_dropWhile_tail_of_count hc hdw
    have e1 : trimR1 l = (l.dropWhile (fun c => c == '0')).tail := by
      unfold trimR1
      rw [if_pos hr1]
    have hfix : trimCore l = (l.dropWhile (fun c => c == '0')).tail := by
      unfold trimCore
      rw [e1, trimR2_of_not_mem hnr, trimR3_of_not_mem hnr]
    rw [hfix] at hmem
    exact absurd hmem hnr
  · have e1 : trimR1 l = l := by
      unfold trimR1
      rw [if_neg hr1]
    by_cases hr2 : l.takeWhile (fun c => c == '0') ≠ [] ∧
        headNonzeroDigit (l.dropWhile (fun c => c == '0')) = true ∧
        ((l.dropWhile (fun c => c == '0')).tail.dropWhile Char.isDigit).head?
          = some '.'
    · have e2 : trimR2 l = l.dropWhile (fun c => c == '0') := by
        unfold trimR2
        rw [if_pos hr2]
      obtain ⟨hA, hB, hC⟩ := hr2
      cases hdw : l.dropWhile (fun c => c == '0') with
      | nil =>
        rw [hdw] at hB
        simp [headNonzeroDigit] at hB
      | cons d r =>
        rw [hdw] at hB
        have hdig : '1' ≤ d ∧ d ≤ '9' := by
          simpa [headNonzeroDigit] using hB
        have hfix : trimCore l = d :: r := by
          unfold trimCore
          rw [e1, e2, hdw]
          unfold trimR3
          rw [if_neg]
          intro hA2
          rw [List.head?_cons] at hA2
          have hd : d = '.' := Option.some.inj hA2
          rw [hd] at hdig
          exact absurd hdig.1 (by decide)
        rw [hfix]
        exact trimCore_cons_nonzero hdig.1 hdig.2
    · have e2 : trimR2 l = l := by
        unfold trimR2
        rw [if_neg hr2]
      by_cases hr3 : l.head? = some '.'
      · have e3 : trimR3 l = l.tail := by
          unfold trimR3
          rw [if_pos hr3]
        have hfix : trimCore l = l.tail := by
          unfold trimCore
          rw [e1, e2, e3]
        cases hl : l with
        | nil =>
          rw [hl] at hr3
          simp at hr3
        | cons a t =>
          rw [hl, List.head?_cons] at hr3
          have ha : a = '.' := Option.some.inj hr3
          rw [hl, ha, List.count_cons_self] at hc
          have hnt : '.' ∉ t := List.count_eq_zero.mp (by omega)
          rw [hfix, hl, ha] at hmem
          simp only [List.tail_cons] at hmem
          exact absurd hmem hnt
      · have e3 : trimR3 l = l := by
          unfold trimR3
          rw [if_neg hr3]
        have hfix : trimCore l = l := by
          unfold trimCore
          rw [e1, e2, e3]
        rw [hfix]
        exact hfix

theorem trim_eq_of_not_mem {s : String} (h : '.' ∉ s.data) :
    trimTrailingZeros s = s := by
  unfold trimTrailingZeros
  rw [if_pos h]

theorem trim_eq_of_mem {s : String} (h : '.' ∈ s.data) :
    trimTrailingZeros s
      = if trimCore s.data.reverse = [] then initialCurrent
        else ⟨(trimCore s.data.reverse).reverse⟩ := by
  unfold trimTrailingZeros
  rw [if_neg (not_not_intro h)]

/-- Claim C8: the trailing-zero trimming is idempotent on decimal strings
(strings with at most one decimal point). -/
theorem claim_C8 (x : String) (h : x.data.count '.' ≤ 1) :
    trimTrailingZeros (trimTrailingZeros x) = trimTrailingZeros x := by
  by_cases hdot : '.' ∈ x.data
  · have hc1 : x.data.count '.' = 1 := by
      have := List.count_pos_iff.mpr hdot
      omega
    have hrev : x.data.reverse.count '.' = 1 := by
      rw [List.count_reverse]
      exact hc1
    rw [trim_eq_of_mem hdot]
    by_cases hT : trimCore x.data.reverse = []
    · rw [if_pos hT]
      decide
    · rw [if_neg hT]
      by_cases hmem : '.' ∈ trimCore x.data.reverse
      · have hdata : (⟨(trimCore x.data.reverse).reverse⟩ : String).data
            = (trimCore x.data.reverse).reverse := rfl
        rw [trim_eq_of_mem (by rw [hdata]; exact List.mem_reverse.mpr hmem)]
        rw [hdata, List.reverse_reverse, trimCore_idem hrev hmem, if_neg hT]
      · exact trim_eq_of_not_mem (by
          intro hx
          exact hmem (List.mem_reverse.mp hx))
  · have hfix : trimTrailingZeros x = x := trim_eq_of_not_mem hdot
    rw [hfix]
    exact hfix

theorem claim_C8_witness :
    ("12.3400" : String).data.count '.' ≤ 1 ∧
      trimTrailingZeros (trimTrailingZeros "12.3400")
        = trimTrailingZeros "12.3400" :=
  ⟨by decide, claim_C8 "12.3400" (by decide)⟩

/-- The one-dot hypothesis of the idempotence theorem is necessary: on a
malformed input with two dots the first pass only strips the trailing dot
(`"1.0." ↦ "1.0"`) and a second pass strips further (`"1.0" ↦ "1"`). -/
theorem trimTrailingZeros_not_idem_on_two_dots :
    trimTrailingZeros (trimTrailingZeros "1.0.") ≠ trimTrailingZeros "1.0." :=
  by decide

end Jsq
